import Mathlib

/-!
Verification of the concurrent link crawler in `au_link_checker.py`.

Python strings are modelled as `List Char` (`Str`), so that Python's
`len`, slicing (`[:n]`), `split`, `strip` and substring test (`in`)
become `List.length`, `List.take`, `pySplit`, `pyStrip` and `strIn`.
Network effects (requests issued through the shared `session`) are
modelled as oracle functions carried in an `Env` record; the crawler's
thread pool is modelled as a small-step transition system whose atomic
steps are exactly the atomic actions of the Python program (the
check-and-insert on `checked_links` happens under
`checked_links_lock`, so it is one step; `results_queue.put` is one
step; every other interleaving point is a separate step).
-/

set_option maxRecDepth 10000

abbrev Str := List Char

def strOf (s : String) : Str := s.data

/-- Python whitespace test used by `str.strip()` (ASCII fragment). -/
def isSpaceCh (c : Char) : Bool :=
  c == ' ' || c == '\t' || c == '\n' || c == '\r' || c == '\x0b' || c == '\x0c'

/-- Python `s.strip()`: drop whitespace from both ends. -/
def pyStrip (s : Str) : Str :=
  ((s.dropWhile isSpaceCh).reverse.dropWhile isSpaceCh).reverse

/-- Python `needle in hay` (substring test). -/
def strIn (needle : Str) : Str → Bool
  | [] => needle.isEmpty
  | c :: cs => needle.isPrefixOf (c :: cs) || strIn needle cs

/-- Worker for `pySplit`: scan left to right for the separator
`c0 :: sr`, accumulating the current segment reversed in `acc`.  The
`fuel` argument makes the recursion structural; every recursive call
consumes at least one character of `s`, so `fuel = s.length` suffices
and the fuel-exhausted branch coincides with the `[]` branch whenever
it is reached. -/
def splitAux (c0 : Char) (sr : Str) : Nat → Str → Str → List Str
  | 0, s, acc => [acc.reverse ++ s]
  | _ + 1, [], acc => [acc.reverse]
  | fuel + 1, c :: cs, acc =>
    if (c0 :: sr).isPrefixOf (c :: cs) then
      acc.reverse :: splitAux c0 sr fuel (cs.drop sr.length) []
    else
      splitAux c0 sr fuel cs (c :: acc)

/-- Python `s.split(sep)` for a non-empty separator: non-overlapping
occurrences, scanned left to right.  (Python raises on an empty
separator; the crawler only ever splits on `"->"` and `" -> "`.) -/
def pySplit (sep : Str) (s : Str) : List Str :=
  match sep with
  | [] => [s]
  | c0 :: sr => splitAux c0 sr s.length s []

/-- `MAX_PATH_LENGTH = 255` in `au_link_checker.py`. -/
def MAX_PATH_LENGTH : Nat := 255

def sepArrow : Str := strOf " -> "

def sepEllipsis : Str := strOf " -> ... -> "

def ellipsisMark : Str := strOf "..."

/-- The path construction/compression performed by `main` for each
discovered link (`au_link_checker.py` lines 139-170), extracted as the
pure function of `(parent path, link)` that it is.  `available` is the
Python `available_for_end = MAX_PATH_LENGTH - (len(start_part) + 12)`,
an `int` that may be negative, hence `Int` here. -/
def extend_path (path link : Str) : Str :=
  let full := path ++ sepArrow ++ link
  if full.length > MAX_PATH_LENGTH then
    let parts := pySplit sepArrow full
    if parts.length > 2 then
      let startPart := parts.headI
      let endPart := parts.getLastD []
      let available : Int := (MAX_PATH_LENGTH : Int) - (startPart.length + 12)
      if available < (endPart.length : Int) ∧ 0 < available then
        startPart ++ sepEllipsis ++ endPart.take available.toNat
      else if (endPart.length : Int) ≤ available then
        startPart ++ sepEllipsis ++ endPart
      else
        full.take (MAX_PATH_LENGTH - 3) ++ ellipsisMark
    else
      if full.length > MAX_PATH_LENGTH then
        full.take (MAX_PATH_LENGTH - 3) ++ ellipsisMark
      else full
  else full

/-- The Path Tracker exactly as worded by the specification (§4.3 and
claim C4): the remaining budget is
`max - len(root) - len(" -> ... -> ")` (the separator-with-ellipsis
string has 11 characters), and the fits-check comes first. -/
def spec_extend (path link : Str) : Str :=
  let full := path ++ sepArrow ++ link
  if full.length ≤ MAX_PATH_LENGTH then full
  else
    let parts := pySplit sepArrow full
    if parts.length < 3 then full.take (MAX_PATH_LENGTH - 3) ++ ellipsisMark
    else
      let root := parts.headI
      let lastSeg := parts.getLastD []
      let budget : Int := (MAX_PATH_LENGTH : Int) - root.length - sepEllipsis.length
      if (lastSeg.length : Int) ≤ budget then root ++ sepEllipsis ++ lastSeg
      else if 0 < budget then root ++ sepEllipsis ++ lastSeg.take budget.toNat
      else full.take (MAX_PATH_LENGTH - 3) ++ ellipsisMark

/-- The Path Tracker as amended: identical to `spec_extend` except
that the remaining budget is `max - len(root) - 12` (what the code
computes: one more than the length of the literal `" -> ... -> "`). -/
def spec_extend_amended (path link : Str) : Str :=
  let full := path ++ sepArrow ++ link
  if full.length ≤ MAX_PATH_LENGTH then full
  else
    let parts := pySplit sepArrow full
    if parts.length < 3 then full.take (MAX_PATH_LENGTH - 3) ++ ellipsisMark
    else
      let root := parts.headI
      let lastSeg := parts.getLastD []
      let budget : Int := (MAX_PATH_LENGTH : Int) - (root.length + 12)
      if (lastSeg.length : Int) ≤ budget then root ++ sepEllipsis ++ lastSeg
      else if 0 < budget then root ++ sepEllipsis ++ lastSeg.take budget.toNat
      else full.take (MAX_PATH_LENGTH - 3) ++ ellipsisMark

/-- `verify_link_in_ui(path, target_url)` from `au_link_checker.py`
lines 85-94.  `net` models `session.get(parent_url).text`: `some text`
for a completed request, `none` when the request raises (the Python
`except Exception` branch). -/
def verify_link_in_ui (net : Str → Option Str) (path target : Str) : Str :=
  let pages := (pySplit (strOf "->") path).map pyStrip
  if pages.length < 2 then strOf "N/A"
  else
    match net (pages.getD (pages.length - 2) []) with
    | none => strOf "No"
    | some text => if strIn target text then strOf "Yes" else strOf "No"

/-- Outcome of `session.get` inside `check_link`: the requests library
raises only `requests.RequestException` subclasses for request-level
failures (network error, DNS failure, timeout, retry exhaustion by the
mounted `Retry` adapter), so the oracle domain is a completed status
code or such an exception. -/
inductive ReqResult where
  | ok (status : Nat)
  | reqErr
deriving DecidableEq

/-- `check_link(url)` from `au_link_checker.py` lines 56-64.  First
component: the returned value (`status_code` or `None`).  Second
component: how many times the `finally: time.sleep(RATE_LIMIT)` delay
ran before returning. -/
def check_link (net : Str → ReqResult) (url : Str) : Option Nat × Nat :=
  match net url with
  | .ok s => (some s, 1)
  | .reqErr => (none, 1)

/-- The substrings whose presence excludes a discovered link
(`au_link_checker.py` line 78). -/
def EXCLUDES : List Str :=
  [strOf "jobs.", strOf "careers", strOf "wcsstore", strOf "inactive"]

/-- The filter applied to each joined candidate URL in `get_links`. -/
def link_ok (full : Str) : Bool :=
  strIn (strOf "kmart.com.au") full && !(EXCLUDES.any fun x => strIn x full)

/-- `get_links(url)` from `au_link_checker.py` lines 66-83.  `page`
models the internal `session.get` plus `BeautifulSoup` href
extraction: `.error ()` when anything in the `try` block raises
(network failure or parse/extraction failure), `.ok (status, hrefs)`
for a completed request with the raw `href` attributes found; `join`
models `urljoin`.  The Python function accumulates a `set`; `dedup`
mirrors the absence of duplicates. -/
def get_links (page : Str → Except Unit (Nat × List Str))
    (join : Str → Str → Str) (url : Str) : List Str :=
  match page url with
  | .error _ => []
  | .ok (status, hrefs) =>
    if status = 200 then ((hrefs.map (join url)).filter link_ok).dedup
    else []

/-! ## The crawl as a small-step transition system

`main` (lines 122-201) runs `worker` tasks on a 20-thread pool and
feeds discovered links back in.  A `Task` carries the `(url, path)`
arguments of one `worker` invocation (one future) together with a
program counter (`Phase`) marking the next atomic action of that
invocation; the dispatcher's per-link work on a completed future is
recorded as the remaining `links` of a `.done` task.  Any interleaving
of these atomic actions across tasks is a run of the system. -/

/-- Outcome of the `check_link` call made by a worker.  `.reqErr` is a
`requests.RequestException` (caught inside `check_link`, surfaced as a
`None` status); `.unexpected` stands for any other exception escaping
the task body, which `check_link` does not catch. -/
inductive FetchOutcome where
  | ok (status : Nat)
  | reqErr
  | unexpected
deriving DecidableEq

/-- The fixed collaborators of one crawl: the start URL, the network
behaviour seen by `check_link` (`fetch`), by `verify_link_in_ui`
(`net`) and by `get_links` (`page`), the `urljoin` function, and the
optional `--max-urls` cap. -/
structure Env where
  start_url : Str
  fetch : Str → FetchOutcome
  net : Str → Option Str
  page : Str → Except Unit (Nat × List Str)
  join : Str → Str → Str
  maxUrls : Option Nat

/-- One row pushed to `results_queue` (the wall-clock timestamp field
is omitted: no claim concerns it). -/
structure Record where
  url : Str
  status : Option Nat
  path : Str
  visible : Str
deriving DecidableEq

/-- Program counter of a `worker` invocation.
`entry`: about to test `STOP_EVENT` (line 97);
`claim`: about to run the locked check-and-insert (lines 99-102);
`fetch`: inserted, about to call `check_link` (line 106);
`push`: about to `results_queue.put` (line 110), holding the status;
`finish`: record pushed, about to compute the return value (118-120);
`done links`: future completed, the dispatcher still has `links` of it
to examine (lines 137-174);
`exited`: returned `([], path)` without inserting (stop at entry,
duplicate at claim) or cancelled before starting;
`raised`: an unexpected exception escaped after the insert. -/
inductive Phase where
  | entry
  | claim
  | fetch
  | push (status : Option Nat)
  | finish (status : Option Nat)
  | done (links : List Str)
  | exited
  | raised
deriving DecidableEq

structure CrawlTask where
  url : Str
  path : Str
  phase : Phase
deriving DecidableEq

/-- Crawl state: `visited` is `checked_links` (a Python `set`, here an
insertion list kept duplicate-free), `results` the queue contents,
`stop` the `STOP_EVENT` flag, `tasks` all futures ever submitted. -/
structure CrawlState where
  visited : List Str
  results : List Record
  stop : Bool
  tasks : List CrawlTask
deriving DecidableEq

/-- The return value a completed worker hands the dispatcher
(line 118-120): links only when the fetch returned 200 and the stop
flag is still clear at that moment. -/
def worker_links (env : Env) (stop : Bool) (status : Option Nat) (url : Str) : List Str :=
  if status = some 200 ∧ stop = false then get_links env.page env.join url else []

/-- `future.cancel()` succeeds only on a future whose worker has not
started; a cancelled future never runs (modelled as `exited`). -/
def cancelIfEntry (t : CrawlTask) : CrawlTask :=
  if t.phase = .entry then { t with phase := .exited } else t

/-- Labels naming which atomic action of the program a step performs. -/
inductive Act where
  | entryStop
  | entryGo
  | claimDup
  | claimIns
  | fetchOk
  | fetchErr
  | fetchRaise
  | pushRec
  | finishTask
  | dispSkip
  | dispSpawn
  | dispDrop
  | capFire
deriving DecidableEq

/-- One atomic action of the crawl.  Each rule acts on one task
(decomposed as `pre ++ task :: post`) or, for `capFire`, on the
dispatcher state.  The locked check-and-insert of lines 99-102 is a
single step (`claimDup`/`claimIns`); `STOP_EVENT.set()` occurs only in
the dispatcher thread itself (line 188), so the dispatcher's stop
check at line 172 and the subsequent `submit` cannot be interleaved
with a flag change and form one step (`dispSpawn`). -/
inductive Step (env : Env) : CrawlState → Act → CrawlState → Prop where
  | entryStop (v : List Str) (r : List Record) (pre post : List CrawlTask) (u p : Str) :
      Step env ⟨v, r, true, pre ++ ⟨u, p, .entry⟩ :: post⟩ .entryStop
               ⟨v, r, true, pre ++ ⟨u, p, .exited⟩ :: post⟩
  | entryGo (v : List Str) (r : List Record) (pre post : List CrawlTask) (u p : Str) :
      Step env ⟨v, r, false, pre ++ ⟨u, p, .entry⟩ :: post⟩ .entryGo
               ⟨v, r, false, pre ++ ⟨u, p, .claim⟩ :: post⟩
  | claimDup (v : List Str) (r : List Record) (b : Bool) (pre post : List CrawlTask)
      (u p : Str) (h : u ∈ v) :
      Step env ⟨v, r, b, pre ++ ⟨u, p, .claim⟩ :: post⟩ .claimDup
               ⟨v, r, b, pre ++ ⟨u, p, .exited⟩ :: post⟩
  | claimIns (v : List Str) (r : List Record) (b : Bool) (pre post : List CrawlTask)
      (u p : Str) (h : u ∉ v) :
      Step env ⟨v, r, b, pre ++ ⟨u, p, .claim⟩ :: post⟩ .claimIns
               ⟨u :: v, r, b, pre ++ ⟨u, p, .fetch⟩ :: post⟩
  | fetchOk (v : List Str) (r : List Record) (b : Bool) (pre post : List CrawlTask)
      (u p : Str) (st : Nat) (h : env.fetch u = .ok st) :
      Step env ⟨v, r, b, pre ++ ⟨u, p, .fetch⟩ :: post⟩ .fetchOk
               ⟨v, r, b, pre ++ ⟨u, p, .push (some st)⟩ :: post⟩
  | fetchErr (v : List Str) (r : List Record) (b : Bool) (pre post : List CrawlTask)
      (u p : Str) (h : env.fetch u = .reqErr) :
      Step env ⟨v, r, b, pre ++ ⟨u, p, .fetch⟩ :: post⟩ .fetchErr
               ⟨v, r, b, pre ++ ⟨u, p, .push none⟩ :: post⟩
  | fetchRaise (v : List Str) (r : List Record) (b : Bool) (pre post : List CrawlTask)
      (u p : Str) (h : env.fetch u = .unexpected) :
      Step env ⟨v, r, b, pre ++ ⟨u, p, .fetch⟩ :: post⟩ .fetchRaise
               ⟨v, r, b, pre ++ ⟨u, p, .raised⟩ :: post⟩
  | pushRec (v : List Str) (r : List Record) (b : Bool) (pre post : List CrawlTask)
      (u p : Str) (st : Option Nat) :
      Step env ⟨v, r, b, pre ++ ⟨u, p, .push st⟩ :: post⟩ .pushRec
               ⟨v, r ++ [⟨u, st, p, verify_link_in_ui env.net p u⟩], b,
                pre ++ ⟨u, p, .finish st⟩ :: post⟩
  | finishTask (v : List Str) (r : List Record) (b : Bool) (pre post : List CrawlTask)
      (u p : Str) (st : Option Nat) :
      Step env ⟨v, r, b, pre ++ ⟨u, p, .finish st⟩ :: post⟩ .finishTask
               ⟨v, r, b, pre ++ ⟨u, p, .done (worker_links env b st u)⟩ :: post⟩
  | dispSkip (v : List Str) (r : List Record) (b : Bool) (pre post : List CrawlTask)
      (u p l : Str) (rest : List Str) (h : l ∈ v) :
      Step env ⟨v, r, b, pre ++ ⟨u, p, .done (l :: rest)⟩ :: post⟩ .dispSkip
               ⟨v, r, b, pre ++ ⟨u, p, .done rest⟩ :: post⟩
  | dispDrop (v : List Str) (r : List Record) (pre post : List CrawlTask)
      (u p l : Str) (rest : List Str) (h : l ∉ v) :
      Step env ⟨v, r, true, pre ++ ⟨u, p, .done (l :: rest)⟩ :: post⟩ .dispDrop
               ⟨v, r, true, pre ++ ⟨u, p, .done rest⟩ :: post⟩
  | dispSpawn (v : List Str) (r : List Record) (pre post : List CrawlTask)
      (u p l : Str) (rest : List Str) (h : l ∉ v) :
      Step env ⟨v, r, false, pre ++ ⟨u, p, .done (l :: rest)⟩ :: post⟩ .dispSpawn
               ⟨v, r, false,
                pre ++ ⟨u, p, .done rest⟩ :: (post ++ [⟨l, extend_path p l, .entry⟩])⟩
  | capFire (v : List Str) (r : List Record) (ts : List CrawlTask) (m : Nat)
      (hm : env.maxUrls = some m) (hc : m ≤ v.length) :
      Step env ⟨v, r, false, ts⟩ .capFire ⟨v, r, true, ts.map cancelIfEntry⟩

/-- Line 129: the seed future `executor.submit(worker, start_url,
start_url)` — the path argument is the start URL itself, untruncated. -/
def initState (env : Env) : CrawlState :=
  ⟨[], [], false, [⟨env.start_url, env.start_url, .entry⟩]⟩

/-- States reachable from the seeded initial state by any
interleaving of atomic actions. -/
def Reaches (env : Env) (s : CrawlState) : Prop :=
  Relation.ReflTransGen (fun s1 s2 => ∃ a, Step env s1 a s2) (initState env) s

/-- Phases whose task has inserted its URL but not yet pushed its
record, or inserted and then raised. -/
def isOwnerPhase : Phase → Bool
  | .fetch => true
  | .push _ => true
  | .raised => true
  | _ => false

/-- Inserted, record not yet pushed. -/
def isInFlight : Phase → Bool
  | .fetch => true
  | .push _ => true
  | _ => false

def isRaisedP : Phase → Bool
  | .raised => true
  | _ => false

/-- Phases a task can only occupy after winning the check-and-insert. -/
def claimedPhase : Phase → Bool
  | .fetch => true
  | .push _ => true
  | .finish _ => true
  | .done _ => true
  | .raised => true
  | _ => false

/-- Phases in which a future is finished as far as the thread pool is
concerned: nothing in it remains to run. -/
def terminalPhase : Phase → Bool
  | .done _ => true
  | .exited => true
  | .raised => true
  | _ => false

/-- At crawl end every worker has returned (the `with
ThreadPoolExecutor` block waits for all submitted, non-cancelled
futures before `main` drains the queue). -/
def isFinal (s : CrawlState) : Prop :=
  ∀ t ∈ s.tasks, terminalPhase t.phase = true

instance (s : CrawlState) : Decidable (isFinal s) :=
  List.decidableBAll (fun t : CrawlTask => terminalPhase t.phase = true) s.tasks

/-- Number of Result Records for a given URL. -/
def recCount (res : List Record) (u : Str) : Nat :=
  res.countP fun r => r.url == u

def taskOwnCount (ts : List CrawlTask) (u : Str) : Nat :=
  ts.countP fun t => t.url == u && isOwnerPhase t.phase

/-- For one URL: records pushed plus tasks that inserted it and have
not pushed yet (or raised after inserting). -/
def owner (s : CrawlState) (u : Str) : Nat :=
  recCount s.results u + taskOwnCount s.tasks u

/-! ## Helper lemmas -/

theorem sepArrow_length : sepArrow.length = 4 := by decide

theorem sepEllipsis_length : sepEllipsis.length = 11 := by decide

theorem ellipsisMark_length : ellipsisMark.length = 3 := by decide

theorem countP_mid_congr {α : Type _} (f : α → Bool) (pre post : List α)
    (t t' : α) (h : f t' = f t) :
    (pre ++ t' :: post).countP f = (pre ++ t :: post).countP f := by
  simp [List.countP_append, List.countP_cons, h]

theorem countP_mid_succ {α : Type _} (f : α → Bool) (pre post : List α)
    (t t' : α) (ht : f t = false) (ht' : f t' = true) :
    (pre ++ t' :: post).countP f = (pre ++ t :: post).countP f + 1 := by
  simp [List.countP_append, List.countP_cons, ht, ht']
  omega

theorem recCount_append (r : List Record) (rec : Record) (u : Str) :
    recCount (r ++ [rec]) u = recCount r u + if rec.url == u then 1 else 0 := by
  simp [recCount, List.countP_append, List.countP_cons]

theorem mem_of_side {α : Type _} {pre post : List α} {x : α} (y : α)
    (h : x ∈ pre ∨ x ∈ post) : x ∈ pre ++ y :: post := by
  rcases h with h | h <;> simp [List.mem_append, List.mem_cons, h]

theorem mem_mid {α : Type _} (pre post : List α) (y : α) :
    y ∈ pre ++ y :: post := by
  simp [List.mem_append, List.mem_cons]

theorem side_of_mem {α : Type _} {pre post : List α} {x y : α}
    (h : x ∈ pre ++ y :: post) : x = y ∨ (x ∈ pre ∨ x ∈ post) := by
  simp only [List.mem_append, List.mem_cons] at h
  tauto

/-- Whatever its inputs, the path computed for a dispatched child task
never exceeds `MAX_PATH_LENGTH`. -/
theorem extend_path_length_le (path link : Str) :
    (extend_path path link).length ≤ MAX_PATH_LENGTH := by
  simp only [extend_path]
  split_ifs <;>
    simp_all [List.length_append, List.length_take, sepArrow_length,
      sepEllipsis_length, ellipsisMark_length, MAX_PATH_LENGTH] <;>
    omega

theorem cancelIfEntry_url (t : CrawlTask) : (cancelIfEntry t).url = t.url := by
  by_cases h : t.phase = Phase.entry <;> simp [cancelIfEntry, h]

theorem cancelIfEntry_path (t : CrawlTask) : (cancelIfEntry t).path = t.path := by
  by_cases h : t.phase = Phase.entry <;> simp [cancelIfEntry, h]

theorem cancelIfEntry_owner (t : CrawlTask) :
    isOwnerPhase (cancelIfEntry t).phase = isOwnerPhase t.phase := by
  by_cases h : t.phase = Phase.entry <;> simp [cancelIfEntry, h, isOwnerPhase]

theorem cancelIfEntry_inFlight (t : CrawlTask) :
    isInFlight (cancelIfEntry t).phase = isInFlight t.phase := by
  by_cases h : t.phase = Phase.entry <;> simp [cancelIfEntry, h, isInFlight]

theorem cancelIfEntry_raised (t : CrawlTask) :
    isRaisedP (cancelIfEntry t).phase = isRaisedP t.phase := by
  by_cases h : t.phase = Phase.entry <;> simp [cancelIfEntry, h, isRaisedP]

theorem cancelIfEntry_claimed (t : CrawlTask) :
    claimedPhase (cancelIfEntry t).phase = claimedPhase t.phase := by
  by_cases h : t.phase = Phase.entry <;> simp [cancelIfEntry, h, claimedPhase]

theorem cancelIfEntry_of_ne (t : CrawlTask) (h : t.phase ≠ .entry) :
    cancelIfEntry t = t := by
  simp [cancelIfEntry, h]

/-! ## The crawl invariant -/

/-- Inductive invariant of the crawl, established at seeding and
preserved by every atomic action:
`nodup`: the Visited Set holds no duplicates;
`ownerBound`: per URL, pushed records plus claim-owning tasks number
at most one, and zero while the URL is unvisited;
`card`: visited size equals records pushed plus tasks that inserted
but have not pushed yet plus tasks that inserted and raised;
`claimedVisited`: a task past the check-and-insert has its URL in the
Visited Set;
`seedPath`: any task for the start URL carries the verbatim start URL
as its path;
`seedVisited`: once any task for another URL exists, the start URL
has been inserted;
`taskPathB`: every task's path is bounded by `MAX_PATH_LENGTH` unless
it is the verbatim start URL;
`recOk`: every pushed record inherits the path facts and its
`Visible` field is exactly `verify_link_in_ui` of its path and URL. -/
structure CrawlInv (env : Env) (s : CrawlState) : Prop where
  nodup : s.visited.Nodup
  ownerBound : ∀ u : Str, owner s u ≤ if u ∈ s.visited then 1 else 0
  card : s.visited.length =
    s.results.length + (s.tasks.countP fun t => isInFlight t.phase) +
      (s.tasks.countP fun t => isRaisedP t.phase)
  claimedVisited : ∀ t ∈ s.tasks, claimedPhase t.phase = true → t.url ∈ s.visited
  seedPath : ∀ t ∈ s.tasks, t.url = env.start_url → t.path = env.start_url
  seedVisited : ∀ t ∈ s.tasks, t.url ≠ env.start_url → env.start_url ∈ s.visited
  taskPathB : ∀ t ∈ s.tasks, t.path.length ≤ MAX_PATH_LENGTH ∨ t.path = env.start_url
  recOk : ∀ r ∈ s.results,
    (r.path.length ≤ MAX_PATH_LENGTH ∨ r.path = env.start_url) ∧
    (r.url = env.start_url → r.path = env.start_url) ∧
    r.visible = verify_link_in_ui env.net r.path r.url

theorem inv_init (env : Env) : CrawlInv env (initState env) := by
  refine ⟨List.nodup_nil, ?_, ?_, ?_, ?_, ?_, ?_, ?_⟩
  · intro u
    simp [initState, owner, recCount, taskOwnCount, isOwnerPhase]
  · simp [initState, isInFlight, isRaisedP]
  · intro t ht h
    simp only [initState, List.mem_singleton] at ht
    subst ht
    simp [claimedPhase] at h
  · intro t ht h
    simp only [initState, List.mem_singleton] at ht
    subst ht
    rfl
  · intro t ht h
    simp only [initState, List.mem_singleton] at ht
    subst ht
    simp at h
  · intro t ht
    simp only [initState, List.mem_singleton] at ht
    subst ht
    exact Or.inr rfl
  · intro r hr
    simp [initState] at hr

/-- Shared preservation argument for the steps that only advance one
task's phase, keeping its URL and path, the Visited Set and the
results, and not moving the task across the owner / in-flight /
raised classes. -/
theorem inv_phase_change {env : Env} {v : List Str} {r : List Record}
    {b b' : Bool} {pre post : List CrawlTask} {u p : Str} {ph ph' : Phase}
    (hI : CrawlInv env ⟨v, r, b, pre ++ ⟨u, p, ph⟩ :: post⟩)
    (hOwn : isOwnerPhase ph' = isOwnerPhase ph)
    (hIF : isInFlight ph' = isInFlight ph)
    (hRa : isRaisedP ph' = isRaisedP ph)
    (hCl : claimedPhase ph' = true → claimedPhase ph = true) :
    CrawlInv env ⟨v, r, b', pre ++ ⟨u, p, ph'⟩ :: post⟩ := by
  obtain ⟨hN, hO, hC, hCV, hSP, hSV, hTP, hR⟩ := hI
  refine ⟨hN, ?_, ?_, ?_, ?_, ?_, ?_, hR⟩
  · intro x
    have h0 := hO x
    have he : taskOwnCount (pre ++ ⟨u, p, ph'⟩ :: post) x =
        taskOwnCount (pre ++ ⟨u, p, ph⟩ :: post) x := by
      exact countP_mid_congr _ pre post _ _ (by simp [hOwn])
    simp only [owner, taskOwnCount] at h0 ⊢
    simp only [taskOwnCount] at he
    omega
  · have h1 : (pre ++ ⟨u, p, ph'⟩ :: post).countP (fun t => isInFlight t.phase) =
        (pre ++ ⟨u, p, ph⟩ :: post).countP (fun t => isInFlight t.phase) :=
      countP_mid_congr _ pre post _ _ (by simp [hIF])
    have h2 : (pre ++ ⟨u, p, ph'⟩ :: post).countP (fun t => isRaisedP t.phase) =
        (pre ++ ⟨u, p, ph⟩ :: post).countP (fun t => isRaisedP t.phase) :=
      countP_mid_congr _ pre post _ _ (by simp [hRa])
    simp only at hC ⊢
    omega
  · intro t ht hc
    rcases side_of_mem ht with rfl | hside
    · exact hCV ⟨u, p, ph⟩ (mem_mid pre post _) (by
        simpa using hCl (by simpa using hc))
    · exact hCV t (mem_of_side _ hside) hc
  · intro t ht hu
    rcases side_of_mem ht with rfl | hside
    · exact hSP ⟨u, p, ph⟩ (mem_mid pre post _) hu
    · exact hSP t (mem_of_side _ hside) hu
  · intro t ht hu
    rcases side_of_mem ht with rfl | hside
    · exact hSV ⟨u, p, ph⟩ (mem_mid pre post _) hu
    · exact hSV t (mem_of_side _ hside) hu
  · intro t ht
    rcases side_of_mem ht with rfl | hside
    · exact hTP ⟨u, p, ph⟩ (mem_mid pre post _)
    · exact hTP t (mem_of_side _ hside)

/-- The crawl invariant is preserved by every atomic action. -/
theorem inv_step {env : Env} {s s' : CrawlState} {a : Act}
    (hI : CrawlInv env s) (hS : Step env s a s') : CrawlInv env s' := by
  cases hS with
  | entryStop v r pre post u p =>
      exact inv_phase_change hI rfl rfl rfl (by simp [claimedPhase])
  | entryGo v r pre post u p =>
      exact inv_phase_change hI rfl rfl rfl (by simp [claimedPhase])
  | claimDup v r b pre post u p h =>
      exact inv_phase_change hI rfl rfl rfl (by simp [claimedPhase])
  | fetchOk v r b pre post u p st h =>
      exact inv_phase_change hI rfl rfl rfl (fun _ => rfl)
  | fetchErr v r b pre post u p h =>
      exact inv_phase_change hI rfl rfl rfl (fun _ => rfl)
  | finishTask v r b pre post u p st =>
      exact inv_phase_change hI rfl rfl rfl (fun _ => rfl)
  | dispSkip v r b pre post u p l rest h =>
      exact inv_phase_change hI rfl rfl rfl (fun _ => rfl)
  | dispDrop v r pre post u p l rest h =>
      exact inv_phase_change hI rfl rfl rfl (fun _ => rfl)
  | claimIns v r b pre post u p h =>
      obtain ⟨hN, hO, hC, hCV, hSP, hSV, hTP, hR⟩ := hI
      refine ⟨List.nodup_cons.mpr ⟨h, hN⟩, ?_, ?_, ?_, ?_, ?_, ?_, hR⟩
      · intro x
        have h0 := hO x
        by_cases hx : u = x
        · subst hx
          rw [if_neg h] at h0
          have hcnt : taskOwnCount (pre ++ ⟨u, p, .fetch⟩ :: post) u =
              taskOwnCount (pre ++ ⟨u, p, .claim⟩ :: post) u + 1 :=
            countP_mid_succ _ pre post _ _ (by simp [isOwnerPhase])
              (by simp [isOwnerPhase])
          simp only [owner] at h0 ⊢
          try dsimp only at h0 ⊢
          rw [if_pos (List.mem_cons_self u v)]
          try dsimp only at h0 hcnt ⊢
          omega
        · have hbe : (u == x) = false := beq_eq_false_iff_ne.mpr hx
          have hcnt : taskOwnCount (pre ++ ⟨u, p, .fetch⟩ :: post) x =
              taskOwnCount (pre ++ ⟨u, p, .claim⟩ :: post) x :=
            countP_mid_congr _ pre post _ _ (by simp [isOwnerPhase, hbe])
          simp only [owner] at h0 ⊢
          try dsimp only at h0 ⊢
          by_cases hxv : x ∈ v
          · rw [if_pos hxv] at h0
            rw [if_pos (List.mem_cons_of_mem _ hxv)]
            omega
          · rw [if_neg hxv] at h0
            rw [if_neg (by simp [List.mem_cons, hxv]; exact fun he => hx he.symm)]
            omega
      · have h1 : (pre ++ ⟨u, p, .fetch⟩ :: post).countP (fun t => isInFlight t.phase) =
            (pre ++ ⟨u, p, .claim⟩ :: post).countP (fun t => isInFlight t.phase) + 1 :=
          countP_mid_succ _ pre post _ _ (by simp [isInFlight]) (by simp [isInFlight])
        have h2 : (pre ++ ⟨u, p, .fetch⟩ :: post).countP (fun t => isRaisedP t.phase) =
            (pre ++ ⟨u, p, .claim⟩ :: post).countP (fun t => isRaisedP t.phase) :=
          countP_mid_congr _ pre post _ _ (by simp [isRaisedP])
        try dsimp only at hC ⊢
        try simp only [List.length_cons] at hC ⊢
        omega
      · intro t ht hc
        rcases side_of_mem ht with rfl | hside
        · exact List.mem_cons_self _ _
        · exact List.mem_cons_of_mem _ (hCV t (mem_of_side _ hside) hc)
      · intro t ht hu
        rcases side_of_mem ht with rfl | hside
        · exact hSP ⟨u, p, .claim⟩ (mem_mid pre post _) hu
        · exact hSP t (mem_of_side _ hside) hu
      · intro t ht hu
        rcases side_of_mem ht with rfl | hside
        · exact List.mem_cons_of_mem _ (hSV ⟨u, p, .claim⟩ (mem_mid pre post _) hu)
        · exact List.mem_cons_of_mem _ (hSV t (mem_of_side _ hside) hu)
      · intro t ht
        rcases side_of_mem ht with rfl | hside
        · exact hTP ⟨u, p, .claim⟩ (mem_mid pre post _)
        · exact hTP t (mem_of_side _ hside)
  | fetchRaise v r b pre post u p h =>
      obtain ⟨hN, hO, hC, hCV, hSP, hSV, hTP, hR⟩ := hI
      refine ⟨hN, ?_, ?_, ?_, ?_, ?_, ?_, hR⟩
      · intro x
        have h0 := hO x
        have hcnt : taskOwnCount (pre ++ ⟨u, p, .raised⟩ :: post) x =
            taskOwnCount (pre ++ ⟨u, p, .fetch⟩ :: post) x :=
          countP_mid_congr _ pre post _ _ (by simp [isOwnerPhase])
        simp only [owner] at h0 ⊢
        try dsimp only at h0 ⊢
        omega
      · have h1 : (pre ++ ⟨u, p, .fetch⟩ :: post).countP (fun t => isInFlight t.phase) =
            (pre ++ ⟨u, p, .raised⟩ :: post).countP (fun t => isInFlight t.phase) + 1 :=
          countP_mid_succ _ pre post _ _ (by simp [isInFlight]) (by simp [isInFlight])
        have h2 : (pre ++ ⟨u, p, .raised⟩ :: post).countP (fun t => isRaisedP t.phase) =
            (pre ++ ⟨u, p, .fetch⟩ :: post).countP (fun t => isRaisedP t.phase) + 1 :=
          countP_mid_succ _ pre post _ _ (by simp [isRaisedP]) (by simp [isRaisedP])
        try dsimp only at hC ⊢
        omega
      · intro t ht hc
        rcases side_of_mem ht with rfl | hside
        · exact hCV ⟨u, p, .fetch⟩ (mem_mid pre post _) rfl
        · exact hCV t (mem_of_side _ hside) hc
      · intro t ht hu
        rcases side_of_mem ht with rfl | hside
        · exact hSP ⟨u, p, .fetch⟩ (mem_mid pre post _) hu
        · exact hSP t (mem_of_side _ hside) hu
      · intro t ht hu
        rcases side_of_mem ht with rfl | hside
        · exact hSV ⟨u, p, .fetch⟩ (mem_mid pre post _) hu
        · exact hSV t (mem_of_side _ hside) hu
      · intro t ht
        rcases side_of_mem ht with rfl | hside
        · exact hTP ⟨u, p, .fetch⟩ (mem_mid pre post _)
        · exact hTP t (mem_of_side _ hside)
  | pushRec v r b pre post u p st =>
      obtain ⟨hN, hO, hC, hCV, hSP, hSV, hTP, hR⟩ := hI
      refine ⟨hN, ?_, ?_, ?_, ?_, ?_, ?_, ?_⟩
      · intro x
        have h0 := hO x
        by_cases hx : u = x
        · subst hx
          have hcnt : taskOwnCount (pre ++ ⟨u, p, .push st⟩ :: post) u =
              taskOwnCount (pre ++ ⟨u, p, .finish st⟩ :: post) u + 1 :=
            countP_mid_succ _ pre post _ _ (by simp [isOwnerPhase])
              (by simp [isOwnerPhase])
          have hrec : recCount (r ++ [⟨u, st, p, verify_link_in_ui env.net p u⟩]) u =
              recCount r u + 1 := by
            rw [recCount_append]
            simp
          simp only [owner] at h0 ⊢
          try dsimp only at h0 ⊢
          try dsimp only at h0 hcnt hrec ⊢
          omega
        · have hbe : (u == x) = false := beq_eq_false_iff_ne.mpr hx
          have hcnt : taskOwnCount (pre ++ ⟨u, p, .finish st⟩ :: post) x =
              taskOwnCount (pre ++ ⟨u, p, .push st⟩ :: post) x :=
            countP_mid_congr _ pre post _ _ (by simp [isOwnerPhase, hbe])
          have hrec : recCount (r ++ [⟨u, st, p, verify_link_in_ui env.net p u⟩]) x =
              recCount r x := by
            rw [recCount_append]
            simp [hbe]
          simp only [owner] at h0 ⊢
          try dsimp only at h0 ⊢
          omega
      · have h1 : (pre ++ ⟨u, p, .push st⟩ :: post).countP (fun t => isInFlight t.phase) =
            (pre ++ ⟨u, p, .finish st⟩ :: post).countP (fun t => isInFlight t.phase) + 1 :=
          countP_mid_succ _ pre post _ _ (by simp [isInFlight]) (by simp [isInFlight])
        have h2 : (pre ++ ⟨u, p, .finish st⟩ :: post).countP (fun t => isRaisedP t.phase) =
            (pre ++ ⟨u, p, .push st⟩ :: post).countP (fun t => isRaisedP t.phase) :=
          countP_mid_congr _ pre post _ _ (by simp [isRaisedP])
        have h3 : (r ++ ([⟨u, st, p, verify_link_in_ui env.net p u⟩] : List Record)).length =
            r.length + 1 := by simp
        try dsimp only at hC ⊢
        omega
      · intro t ht hc
        rcases side_of_mem ht with rfl | hside
        · exact hCV ⟨u, p, .push st⟩ (mem_mid pre post _) rfl
        · exact hCV t (mem_of_side _ hside) hc
      · intro t ht hu
        rcases side_of_mem ht with rfl | hside
        · exact hSP ⟨u, p, .push st⟩ (mem_mid pre post _) hu
        · exact hSP t (mem_of_side _ hside) hu
      · intro t ht hu
        rcases side_of_mem ht with rfl | hside
        · exact hSV ⟨u, p, .push st⟩ (mem_mid pre post _) hu
        · exact hSV t (mem_of_side _ hside) hu
      · intro t ht
        rcases side_of_mem ht with rfl | hside
        · exact hTP ⟨u, p, .push st⟩ (mem_mid pre post _)
        · exact hTP t (mem_of_side _ hside)
      · intro rr hrr
        rcases List.mem_append.mp hrr with hin | hnew
        · exact hR rr hin
        · simp only [List.mem_singleton] at hnew
          subst hnew
          exact ⟨hTP ⟨u, p, .push st⟩ (mem_mid pre post _),
            fun hu => hSP ⟨u, p, .push st⟩ (mem_mid pre post _) hu, rfl⟩
  | dispSpawn v r pre post u p l rest h =>
      obtain ⟨hN, hO, hC, hCV, hSP, hSV, hTP, hR⟩ := hI
      have hu : u ∈ v := hCV ⟨u, p, .done (l :: rest)⟩ (mem_mid pre post _) rfl
      have hstart : env.start_url ∈ v := by
        by_cases hus : u = env.start_url
        · exact hus ▸ hu
        · exact hSV ⟨u, p, .done (l :: rest)⟩ (mem_mid pre post _) hus
      have hlstart : l ≠ env.start_url := fun he => h (he ▸ hstart)
      refine ⟨hN, ?_, ?_, ?_, ?_, ?_, ?_, hR⟩
      · intro x
        have h0 := hO x
        have hcnt : taskOwnCount
            (pre ++ ⟨u, p, .done rest⟩ :: (post ++ [⟨l, extend_path p l, .entry⟩])) x =
            taskOwnCount (pre ++ ⟨u, p, .done (l :: rest)⟩ :: post) x := by
          simp [taskOwnCount, List.countP_append, List.countP_cons, isOwnerPhase]
        simp only [owner] at h0 ⊢
        try dsimp only at h0 ⊢
        omega
      · have h1 : List.countP (fun t : CrawlTask => isInFlight t.phase)
              (pre ++ ⟨u, p, .done rest⟩ :: (post ++ [⟨l, extend_path p l, .entry⟩])) =
            List.countP (fun t : CrawlTask => isInFlight t.phase)
              (pre ++ ⟨u, p, .done (l :: rest)⟩ :: post) := by
          simp [List.countP_append, List.countP_cons, isInFlight]
        have h2 : List.countP (fun t : CrawlTask => isRaisedP t.phase)
              (pre ++ ⟨u, p, .done rest⟩ :: (post ++ [⟨l, extend_path p l, .entry⟩])) =
            List.countP (fun t : CrawlTask => isRaisedP t.phase)
              (pre ++ ⟨u, p, .done (l :: rest)⟩ :: post) := by
          simp [List.countP_append, List.countP_cons, isRaisedP]
        try dsimp only at hC ⊢
        omega
      · intro t ht hc
        rcases List.mem_append.mp ht with hpre | hrest
        · exact hCV t (mem_of_side _ (Or.inl hpre)) hc
        rcases List.mem_cons.mp hrest with rfl | hrest2
        · exact hu
        rcases List.mem_append.mp hrest2 with hpost | hchild
        · exact hCV t (mem_of_side _ (Or.inr hpost)) hc
        · rw [List.mem_singleton.mp hchild] at hc
          simp [claimedPhase] at hc
      · intro t ht hus
        rcases List.mem_append.mp ht with hpre | hrest
        · exact hSP t (mem_of_side _ (Or.inl hpre)) hus
        rcases List.mem_cons.mp hrest with rfl | hrest2
        · exact hSP ⟨u, p, .done (l :: rest)⟩ (mem_mid pre post _) hus
        rcases List.mem_append.mp hrest2 with hpost | hchild
        · exact hSP t (mem_of_side _ (Or.inr hpost)) hus
        · rw [List.mem_singleton.mp hchild] at hus
          exact absurd hus hlstart
      · intro t ht hus
        exact hstart
      · intro t ht
        rcases List.mem_append.mp ht with hpre | hrest
        · exact hTP t (mem_of_side _ (Or.inl hpre))
        rcases List.mem_cons.mp hrest with rfl | hrest2
        · exact hTP ⟨u, p, .done (l :: rest)⟩ (mem_mid pre post _)
        rcases List.mem_append.mp hrest2 with hpost | hchild
        · exact hTP t (mem_of_side _ (Or.inr hpost))
        · rw [List.mem_singleton.mp hchild]
          exact Or.inl (extend_path_length_le p l)
  | capFire v r ts m hm hc =>
      obtain ⟨hN, hO, hC, hCV, hSP, hSV, hTP, hR⟩ := hI
      refine ⟨hN, ?_, ?_, ?_, ?_, ?_, ?_, hR⟩
      · intro x
        have h0 := hO x
        have hcnt : taskOwnCount (ts.map cancelIfEntry) x = taskOwnCount ts x := by
          simp only [taskOwnCount, List.countP_map]
          exact List.countP_congr fun t _ => by
            simp [Function.comp, cancelIfEntry_url, cancelIfEntry_owner]
        simp only [owner] at h0 ⊢
        try dsimp only at h0 ⊢
        omega
      · have h1 : (ts.map cancelIfEntry).countP (fun t => isInFlight t.phase) =
            ts.countP (fun t => isInFlight t.phase) := by
          simp only [List.countP_map]
          exact List.countP_congr fun t _ => by
            simp [Function.comp, cancelIfEntry_inFlight]
        have h2 : (ts.map cancelIfEntry).countP (fun t => isRaisedP t.phase) =
            ts.countP (fun t => isRaisedP t.phase) := by
          simp only [List.countP_map]
          exact List.countP_congr fun t _ => by
            simp [Function.comp, cancelIfEntry_raised]
        try dsimp only at hC ⊢
        omega
      · intro t ht hcl
        rcases List.mem_map.mp ht with ⟨t0, ht0, rfl⟩
        rw [cancelIfEntry_claimed] at hcl
        rw [cancelIfEntry_url]
        exact hCV t0 ht0 hcl
      · intro t ht hus
        rcases List.mem_map.mp ht with ⟨t0, ht0, rfl⟩
        rw [cancelIfEntry_url] at hus
        rw [cancelIfEntry_path]
        exact hSP t0 ht0 hus
      · intro t ht hus
        rcases List.mem_map.mp ht with ⟨t0, ht0, rfl⟩
        rw [cancelIfEntry_url] at hus
        exact hSV t0 ht0 hus
      · intro t ht
        rcases List.mem_map.mp ht with ⟨t0, ht0, rfl⟩
        rw [cancelIfEntry_path]
        exact hTP t0 ht0

/-- The crawl invariant holds in every reachable state. -/
theorem inv_reaches {env : Env} {s : CrawlState} (h : Reaches env s) :
    CrawlInv env s := by
  induction h with
  | refl => exact inv_init env
  | tail _ hstep ih =>
      rcases hstep with ⟨a, ha⟩
      exact inv_step ih ha

theorem pySplit_sanity1 :
    pySplit (strOf "->") (strOf "a->b") = [strOf "a", strOf "b"] := by decide

theorem pySplit_sanity2 :
    pySplit (strOf " -> ") (strOf "r -> m -> x") =
      [strOf "r", strOf "m", strOf "x"] := by decide

theorem strIn_sanity : strIn (strOf "ma") (strOf "kmart") = true := by decide

/-- Concrete parent path for the C4 counterexample: two segments,
`"r"` and eight `m`s. -/
def cex4_parent : Str := strOf "r -> mmmmmmmm"

/-- Concrete child URL for the C4 counterexample: 243 characters. -/
def cex4_child : Str := List.replicate 243 'c'

/-- C4 (corrected).  Path truncation algorithm: the code follows the
claimed algorithm except that the remaining budget is
`max - len(root) - 12`, one less than `max - len(root) -
len(" -> ... -> ")` (the literal separator-with-ellipsis has 11
characters while the code subtracts 12): for every parent path and
child URL the computed child path equals the amended specification. -/
theorem C4_truncation_amended (p c : Str) :
    extend_path p c = spec_extend_amended p c := by
  simp only [extend_path, spec_extend_amended]
  split_ifs <;> first | rfl | omega

/-- C4 counterexample.  At parent path `"r -> mmmmmmmm"` and a
243-character child URL the code truncates the child to 242
characters while the algorithm as claimed (budget
`max - len(root) - len(" -> ... -> ")`) would keep it whole. -/
theorem C4_truncation_counterexample :
    extend_path cex4_parent cex4_child ≠ spec_extend cex4_parent cex4_child := by
  decide

/-! ## Concrete crawls used as witnesses and counterexamples -/

/-- A crawl of the single URL `"u"` whose fetch completes with 404. -/
def envW : Env :=
  ⟨strOf "u", fun _ => .ok 404, fun _ => none, fun _ => .error (), fun _ l => l, none⟩

def sW1 : CrawlState := ⟨[], [], false, [⟨strOf "u", strOf "u", .claim⟩]⟩

def sW2 : CrawlState := ⟨[strOf "u"], [], false, [⟨strOf "u", strOf "u", .fetch⟩]⟩

def sW3 : CrawlState :=
  ⟨[strOf "u"], [], false, [⟨strOf "u", strOf "u", .push (some 404)⟩]⟩

def recW : Record :=
  ⟨strOf "u", some 404, strOf "u",
    verify_link_in_ui (fun _ => none) (strOf "u") (strOf "u")⟩

def sW4 : CrawlState :=
  ⟨[strOf "u"], [recW], false, [⟨strOf "u", strOf "u", .finish (some 404)⟩]⟩

def sW5 : CrawlState :=
  ⟨[strOf "u"], [recW], false, [⟨strOf "u", strOf "u", .done []⟩]⟩

theorem reachesW : Reaches envW sW5 := by
  have h1 : Step envW (initState envW) .entryGo sW1 :=
    Step.entryGo [] [] [] [] (strOf "u") (strOf "u")
  have h2 : Step envW sW1 .claimIns sW2 :=
    Step.claimIns [] [] false [] [] (strOf "u") (strOf "u") (List.not_mem_nil _)
  have h3 : Step envW sW2 .fetchOk sW3 :=
    Step.fetchOk [strOf "u"] [] false [] [] (strOf "u") (strOf "u") 404 rfl
  have h4 : Step envW sW3 .pushRec sW4 :=
    Step.pushRec [strOf "u"] [] false [] [] (strOf "u") (strOf "u") (some 404)
  have h5 : Step envW sW4 .finishTask sW5 :=
    Step.finishTask [strOf "u"] [recW] false [] [] (strOf "u") (strOf "u") (some 404)
  exact Relation.ReflTransGen.tail (Relation.ReflTransGen.tail
    (Relation.ReflTransGen.tail (Relation.ReflTransGen.tail
      (Relation.ReflTransGen.tail Relation.ReflTransGen.refl ⟨_, h1⟩) ⟨_, h2⟩)
        ⟨_, h3⟩) ⟨_, h4⟩) ⟨_, h5⟩

/-- A crawl of the single URL `"u"` whose task raises an unexpected
exception out of the worker body. -/
def envR : Env :=
  ⟨strOf "u", fun _ => .unexpected, fun _ => none, fun _ => .error (), fun _ l => l, none⟩

def sR1 : CrawlState := ⟨[], [], false, [⟨strOf "u", strOf "u", .claim⟩]⟩

def sR2 : CrawlState := ⟨[strOf "u"], [], false, [⟨strOf "u", strOf "u", .fetch⟩]⟩

def sR3 : CrawlState := ⟨[strOf "u"], [], false, [⟨strOf "u", strOf "u", .raised⟩]⟩

theorem reachesR : Reaches envR sR3 := by
  have h1 : Step envR (initState envR) .entryGo sR1 :=
    Step.entryGo [] [] [] [] (strOf "u") (strOf "u")
  have h2 : Step envR sR1 .claimIns sR2 :=
    Step.claimIns [] [] false [] [] (strOf "u") (strOf "u") (List.not_mem_nil _)
  have h3 : Step envR sR2 .fetchRaise sR3 :=
    Step.fetchRaise [strOf "u"] [] false [] [] (strOf "u") (strOf "u") rfl
  exact Relation.ReflTransGen.tail (Relation.ReflTransGen.tail
    (Relation.ReflTransGen.tail Relation.ReflTransGen.refl ⟨_, h1⟩) ⟨_, h2⟩) ⟨_, h3⟩

/-- A crawl whose start URL is 256 characters long (no separator in
it); its fetch fails with a `requests` exception. -/
def urlL : Str := List.replicate 256 'a'

def envL : Env :=
  ⟨urlL, fun _ => .reqErr, fun _ => none, fun _ => .error (), fun _ l => l, none⟩

def sL1 : CrawlState := ⟨[], [], false, [⟨urlL, urlL, .claim⟩]⟩

def sL2 : CrawlState := ⟨[urlL], [], false, [⟨urlL, urlL, .fetch⟩]⟩

def sL3 : CrawlState := ⟨[urlL], [], false, [⟨urlL, urlL, .push none⟩]⟩

def recL : Record := ⟨urlL, none, urlL, verify_link_in_ui (fun _ => none) urlL urlL⟩

def sL4 : CrawlState := ⟨[urlL], [recL], false, [⟨urlL, urlL, .finish none⟩]⟩

theorem reachesL : Reaches envL sL4 := by
  have h1 : Step envL (initState envL) .entryGo sL1 :=
    Step.entryGo [] [] [] [] urlL urlL
  have h2 : Step envL sL1 .claimIns sL2 :=
    Step.claimIns [] [] false [] [] urlL urlL (List.not_mem_nil _)
  have h3 : Step envL sL2 .fetchErr sL3 :=
    Step.fetchErr [urlL] [] false [] [] urlL urlL rfl
  have h4 : Step envL sL3 .pushRec sL4 :=
    Step.pushRec [urlL] [] false [] [] urlL urlL none
  exact Relation.ReflTransGen.tail (Relation.ReflTransGen.tail
    (Relation.ReflTransGen.tail (Relation.ReflTransGen.tail
      Relation.ReflTransGen.refl ⟨_, h1⟩) ⟨_, h2⟩) ⟨_, h3⟩) ⟨_, h4⟩

/-- A crawl whose start URL contains the separator `"->"`. -/
def urlX : Str := strOf "a->b"

def envX : Env :=
  ⟨urlX, fun _ => .ok 404, fun _ => none, fun _ => .error (), fun _ l => l, none⟩

def sX1 : CrawlState := ⟨[], [], false, [⟨urlX, urlX, .claim⟩]⟩

def sX2 : CrawlState := ⟨[urlX], [], false, [⟨urlX, urlX, .fetch⟩]⟩

def sX3 : CrawlState := ⟨[urlX], [], false, [⟨urlX, urlX, .push (some 404)⟩]⟩

def recX : Record := ⟨urlX, some 404, urlX, verify_link_in_ui (fun _ => none) urlX urlX⟩

def sX4 : CrawlState := ⟨[urlX], [recX], false, [⟨urlX, urlX, .finish (some 404)⟩]⟩

theorem reachesX : Reaches envX sX4 := by
  have h1 : Step envX (initState envX) .entryGo sX1 :=
    Step.entryGo [] [] [] [] urlX urlX
  have h2 : Step envX sX1 .claimIns sX2 :=
    Step.claimIns [] [] false [] [] urlX urlX (List.not_mem_nil _)
  have h3 : Step envX sX2 .fetchOk sX3 :=
    Step.fetchOk [urlX] [] false [] [] urlX urlX 404 rfl
  have h4 : Step envX sX3 .pushRec sX4 :=
    Step.pushRec [urlX] [] false [] [] urlX urlX (some 404)
  exact Relation.ReflTransGen.tail (Relation.ReflTransGen.tail
    (Relation.ReflTransGen.tail (Relation.ReflTransGen.tail
      Relation.ReflTransGen.refl ⟨_, h1⟩) ⟨_, h2⟩) ⟨_, h3⟩) ⟨_, h4⟩

/-! ## Claim theorems -/

theorem terminal_not_inflight {ph : Phase} (h : terminalPhase ph = true) :
    isInFlight ph = false := by
  cases ph <;> simp_all [terminalPhase, isInFlight]

/-- C1 (confirmed).  At-most-once: in every reachable state of every
crawl, at most one Result Record per URL has been pushed to the
Result Sink, however the URL is discovered; and a URL, once inserted
into the Visited Set by the atomic check-and-insert, is never
removed (the Visited Set only grows along every atomic action). -/
theorem C1_at_most_once :
    (∀ (env : Env) (s : CrawlState), Reaches env s →
        ∀ u : Str, recCount s.results u ≤ 1) ∧
    (∀ (env : Env) (s s' : CrawlState) (a : Act), Step env s a s' →
        ∀ u ∈ s.visited, u ∈ s'.visited) := by
  constructor
  · intro env s h u
    have hI := inv_reaches h
    have hb := hI.ownerBound u
    have hr : recCount s.results u ≤ owner s u := by
      simp only [owner]
      omega
    refine le_trans hr (le_trans hb ?_)
    split <;> omega
  · intro env s s' a hS u hu
    cases hS <;> first | exact hu | exact List.mem_cons_of_mem _ hu

theorem C1_at_most_once_witness : recCount sW5.results (strOf "u") ≤ 1 :=
  C1_at_most_once.1 envW sW5 reachesW (strOf "u")

/-- C2 (corrected).  Cardinality equivalence holds at crawl end
provided no worker raised an unexpected exception after winning the
check-and-insert: in every reachable final state the Visited Set is
duplicate-free and its size equals the number of Result Records plus
the number of tasks that inserted their URL and then raised; when no
task raised, the two cardinalities agree exactly. -/
theorem C2_cardinality_amended :
    ∀ (env : Env) (s : CrawlState), Reaches env s → isFinal s →
      s.visited.Nodup ∧
      s.visited.length =
        s.results.length + s.tasks.countP (fun t => isRaisedP t.phase) ∧
      ((∀ t ∈ s.tasks, t.phase ≠ Phase.raised) →
        s.visited.length = s.results.length) := by
  intro env s h hF
  have hI := inv_reaches h
  have hz : s.tasks.countP (fun t => isInFlight t.phase) = 0 := by
    rw [List.countP_eq_zero]
    intro t ht
    simp [terminal_not_inflight (hF t ht)]
  refine ⟨hI.nodup, ?_, ?_⟩
  · have := hI.card
    omega
  · intro hnr
    have hz2 : s.tasks.countP (fun t => isRaisedP t.phase) = 0 := by
      rw [List.countP_eq_zero]
      intro t ht
      have := hnr t ht
      cases hph : t.phase <;> simp_all [isRaisedP]
    have := hI.card
    omega

theorem C2_cardinality_amended_witness : sW5.visited.length = sW5.results.length :=
  (C2_cardinality_amended envW sW5 reachesW (by decide)).2.2 (by decide)

/-- C2 counterexample.  The claim as stated ("regardless of any
exception raised later in the task") is false: in the concrete crawl
`envR`, whose single task raises an unexpected exception after
inserting its URL, the crawl ends with one visited URL and zero
Result Records. -/
theorem C2_cardinality_counterexample :
    Reaches envR sR3 ∧ isFinal sR3 ∧
      sR3.results.length ≠ sR3.visited.length :=
  ⟨reachesR, by decide, by decide⟩

/-- C3 (corrected).  Path bound: every Result Record's Path is at
most 255 characters long unless it is the verbatim start URL (the
seed record), which is never length-checked. -/
theorem C3_path_bound_amended :
    ∀ (env : Env) (s : CrawlState), Reaches env s →
      ∀ r ∈ s.results, r.path.length ≤ MAX_PATH_LENGTH ∨ r.path = env.start_url := by
  intro env s h r hr
  exact ((inv_reaches h).recOk r hr).1

theorem C3_path_bound_amended_witness :
    recW.path.length ≤ MAX_PATH_LENGTH ∨ recW.path = envW.start_url :=
  C3_path_bound_amended envW sW5 reachesW recW (by decide)

/-- C3 counterexample.  With a 256-character start URL the seed
Result Record's Path has length 256 > 255, so the bound does not hold
for arbitrary start URLs. -/
theorem C3_path_bound_counterexample :
    Reaches envL sL4 ∧ ∃ r ∈ sL4.results, MAX_PATH_LENGTH < r.path.length :=
  ⟨reachesL, recL, by decide, by decide⟩

/-- C5 (corrected).  Worker exception isolation: an unexpected
exception escaping a worker changes nothing but that one task (no
record, no Visited-Set change, no stop-flag change, no effect on any
other task), the dispatcher catches it at `future.result()` and the
crawl continues; but — contrary to the claim — the failing URL is
never surfaced as a Result Record row: its URL has no record in any
reachable state. -/
theorem C5_worker_exception_amended :
    (∀ (env : Env) (s s' : CrawlState), Step env s .fetchRaise s' →
        s'.visited = s.visited ∧ s'.results = s.results ∧ s'.stop = s.stop ∧
          s'.tasks.length = s.tasks.length) ∧
    (∀ (env : Env) (s : CrawlState), Reaches env s →
        ∀ t ∈ s.tasks, t.phase = Phase.raised → recCount s.results t.url = 0) := by
  constructor
  · intro env s s' hS
    cases hS
    exact ⟨rfl, rfl, rfl, by simp⟩
  · intro env s h t ht hph
    have hI := inv_reaches h
    have hb := hI.ownerBound t.url
    have hone : 0 < taskOwnCount s.tasks t.url := by
      rw [taskOwnCount]
      exact List.countP_pos_iff.mpr ⟨t, ht, by simp [hph, isOwnerPhase]⟩
    have hle : owner s t.url ≤ 1 := le_trans hb (by split <;> omega)
    simp only [owner] at hle
    omega

theorem C5_worker_exception_amended_witness :
    recCount sR3.results (strOf "u") = 0 :=
  C5_worker_exception_amended.2 envR sR3 reachesR
    ⟨strOf "u", strOf "u", .raised⟩ (by decide) rfl

/-- C5 counterexample.  In the concrete crawl `envR` the single
task's fetch raises; the crawl ends (all tasks settled), the URL was
claimed into the Visited Set, yet no Result Record row for it exists
— it is not surfaced with a null/error status as claimed. -/
theorem C5_worker_exception_counterexample :
    Reaches envR sR3 ∧ isFinal sR3 ∧ strOf "u" ∈ sR3.visited ∧
      recCount sR3.results (strOf "u") = 0 :=
  ⟨reachesR, by decide, by decide, by decide⟩

/-- C6 (confirmed).  Link-extraction gating: `get_links` yields no
links when its request raises (parse or fetch failure) or completes
with a non-200 status; a worker whose `check_link` status is not 200
(null or any other code) contributes no links; and every `push` step
appends exactly one Result Record whatever the status. -/
theorem C6_extraction_gating :
    (∀ (page : Str → Except Unit (Nat × List Str)) (join : Str → Str → Str)
        (url : Str), page url = .error () → get_links page join url = []) ∧
    (∀ (page : Str → Except Unit (Nat × List Str)) (join : Str → Str → Str)
        (url : Str) (st : Nat) (hrefs : List Str),
        page url = .ok (st, hrefs) → st ≠ 200 → get_links page join url = []) ∧
    (∀ (env : Env) (b : Bool) (st : Option Nat) (url : Str),
        st ≠ some 200 → worker_links env b st url = []) ∧
    (∀ (env : Env) (s s' : CrawlState), Step env s .pushRec s' →
        s'.results.length = s.results.length + 1) := by
  refine ⟨?_, ?_, ?_, ?_⟩
  · intro page join url h
    simp [get_links, h]
  · intro page join url st hrefs h hst
    simp [get_links, h, hst]
  · intro env b st url hst
    simp only [worker_links]
    rw [if_neg]
    rintro ⟨h1, -⟩
    exact hst h1
  · intro env s s' hS
    cases hS
    simp

theorem C6_extraction_gating_witness :
    get_links (fun _ => .error ()) (fun _ l => l) (strOf "u") = [] :=
  C6_extraction_gating.1 (fun _ => .error ()) (fun _ l => l) (strOf "u") rfl

/-- C7 (confirmed).  Fetcher contract: `check_link` is a total
function of the request outcome — it returns the status code when the
request completes and `None` when the request raises a
`requests.RequestException` (network error, DNS failure, timeout,
retry exhaustion), never propagating such an exception — and in both
cases the `finally` rate-limit delay runs exactly once before it
returns. -/
theorem C7_fetcher_contract :
    ∀ (net : Str → ReqResult) (url : Str),
      (check_link net url).2 = 1 ∧
      ((∃ st, net url = .ok st ∧ (check_link net url).1 = some st) ∨
        (net url = .reqErr ∧ (check_link net url).1 = none)) := by
  intro net url
  cases h : net url <;> simp [check_link, h]

/-- C8 (confirmed).  Stop signal and cap: the stop flag is monotone;
while it is raised no step changes the number of submitted tasks (so
nothing further is dispatched), and the only action that ever adds a
task is a dispatch performed with the stop flag clear; a worker that
observes the stop flag at entry only exits (no insert, no record)
while proceeding past the entry check requires the flag clear
(in-flight tasks are otherwise unconstrained and finish naturally);
and the cap action fires only when the Visited Set has reached the
`max_urls` cap, raises the stop flag and cancels exactly the
not-yet-started tasks, leaving every started task untouched. -/
theorem C8_stop_and_cap :
    (∀ (env : Env) (s s' : CrawlState) (a : Act), Step env s a s' →
        s.stop = true → s'.stop = true) ∧
    (∀ (env : Env) (s s' : CrawlState) (a : Act), Step env s a s' →
        s.stop = true → s'.tasks.length = s.tasks.length) ∧
    (∀ (env : Env) (s s' : CrawlState) (a : Act), Step env s a s' →
        s.tasks.length < s'.tasks.length → a = Act.dispSpawn ∧ s.stop = false) ∧
    (∀ (env : Env) (s s' : CrawlState), Step env s .entryGo s' →
        s.stop = false) ∧
    (∀ (env : Env) (s s' : CrawlState), Step env s .entryStop s' →
        s.stop = true ∧ s'.visited = s.visited ∧ s'.results = s.results) ∧
    (∀ (env : Env) (s s' : CrawlState), Step env s .capFire s' →
        (∃ m, env.maxUrls = some m ∧ m ≤ s.visited.length) ∧ s'.stop = true ∧
          s'.tasks = s.tasks.map cancelIfEntry) ∧
    (∀ t : CrawlTask, t.phase ≠ Phase.entry → cancelIfEntry t = t) := by
  refine ⟨?_, ?_, ?_, ?_, ?_, ?_, ?_⟩
  · intro env s s' a hS hstop
    cases hS <;> first | exact hstop | rfl
  · intro env s s' a hS hstop
    cases hS <;> simp_all
  · intro env s s' a hS hlt
    cases hS <;> simp_all
  · intro env s s' hS
    cases hS
    rfl
  · intro env s s' hS
    cases hS
    exact ⟨rfl, rfl, rfl⟩
  · intro env s s' hS
    cases hS with
    | capFire v r ts m hm hc => exact ⟨⟨m, hm, hc⟩, rfl, rfl⟩
  · exact fun t h => cancelIfEntry_of_ne t h

def sC8 : CrawlState := ⟨[], [], true, [⟨strOf "u", strOf "u", .entry⟩]⟩

def sC8' : CrawlState := ⟨[], [], true, [⟨strOf "u", strOf "u", .exited⟩]⟩

theorem stepC8 : Step envW sC8 .entryStop sC8' :=
  Step.entryStop [] [] [] [] (strOf "u") (strOf "u")

theorem C8_stop_and_cap_witness :
    sC8.stop = true ∧ sC8'.visited = sC8.visited ∧ sC8'.results = sC8.results :=
  C8_stop_and_cap.2.2.2.2.1 envW sC8 sC8' stepC8

/-- C9 (corrected).  `verify_link_in_ui` returns `"N/A"` iff
splitting the path on `"->"` yields fewer than two segments, and with
two or more segments it returns `"Yes"` exactly when the target
occurs in the second-to-last (stripped) segment's response and
`"No"` otherwise, including on request failure; consequently the
start URL's Result Record has `Visible = "N/A"` whenever the start
URL itself contains no `"->"` (the claim's unconditional "always" is
amended by that proviso). -/
theorem C9_visible_amended :
    (∀ (net : Str → Option Str) (path target : Str),
        verify_link_in_ui net path target = strOf "N/A" ↔
          (pySplit (strOf "->") path).length < 2) ∧
    (∀ (net : Str → Option Str) (path target : Str),
        2 ≤ ((pySplit (strOf "->") path).map pyStrip).length →
          verify_link_in_ui net path target =
            match net (((pySplit (strOf "->") path).map pyStrip).getD
                (((pySplit (strOf "->") path).map pyStrip).length - 2) []) with
            | none => strOf "No"
            | some text =>
                if strIn target text then strOf "Yes" else strOf "No") ∧
    (∀ (env : Env) (s : CrawlState), Reaches env s →
        (pySplit (strOf "->") env.start_url).length < 2 →
          ∀ r ∈ s.results, r.url = env.start_url → r.visible = strOf "N/A") := by
  refine ⟨?_, ?_, ?_⟩
  · intro net path target
    simp only [verify_link_in_ui]
    by_cases h : ((pySplit (strOf "->") path).map pyStrip).length < 2
    · rw [if_pos h]
      simp only [List.length_map] at h
      simp [h]
    · rw [if_neg h]
      simp only [List.length_map] at h
      constructor
      · intro he
        exfalso
        revert he
        cases net (((pySplit (strOf "->") path).map pyStrip).getD
            (((pySplit (strOf "->") path).map pyStrip).length - 2) []) with
        | none =>
            intro he
            dsimp only at he
            exact absurd he (by decide)
        | some text =>
            intro he
            dsimp only at he
            by_cases ht : strIn target text = true
            · rw [if_pos ht] at he
              exact absurd he (by decide)
            · rw [if_neg ht] at he
              exact absurd he (by decide)
      · intro hlt
        omega
  · intro net path target h
    simp only [verify_link_in_ui]
    rw [if_neg (by omega)]
  · intro env s h hlen r hr hu
    have hI := inv_reaches h
    have hrec := hI.recOk r hr
    have hpath : r.path = env.start_url := hrec.2.1 hu
    rw [hrec.2.2, hpath]
    simp only [verify_link_in_ui]
    rw [if_pos (by simpa using hlen)]

theorem C9_visible_amended_witness : recW.visible = strOf "N/A" :=
  C9_visible_amended.2.2 envW sW5 reachesW (by decide) recW (by decide) rfl

/-- C9 counterexample.  With start URL `"a->b"` (which contains the
separator) the root Result Record's `Visible` is `"No"`, not
`"N/A"`: the "always N/A for the root" part of the claim fails. -/
theorem C9_visible_counterexample :
    Reaches envX sX4 ∧
      ∃ r ∈ sX4.results, r.url = envX.start_url ∧ r.visible ≠ strOf "N/A" :=
  ⟨reachesX, recX, by decide, by decide, by decide⟩

/-- C10 (confirmed).  The seed task is submitted with the start URL
itself as its path — no length check or truncation at seeding — and
in every reachable state of every crawl, any Result Record for the
start URL carries the start URL verbatim as its Path, whatever its
length. -/
theorem C10_seed_path :
    (∀ env : Env,
        (initState env).tasks = [⟨env.start_url, env.start_url, Phase.entry⟩]) ∧
    (∀ (env : Env) (s : CrawlState), Reaches env s →
        ∀ r ∈ s.results, r.url = env.start_url → r.path = env.start_url) := by
  constructor
  · intro env
    rfl
  · intro env s h r hr hu
    exact ((inv_reaches h).recOk r hr).2.1 hu

theorem C10_seed_path_witness : recW.path = envW.start_url :=
  C10_seed_path.2 envW sW5 reachesW recW (by decide) rfl
